import Mathlib

/-!
Verification of the lyric-synchronization / scroll-animation engine and the
artwork rasterizer of the termony repository, as a shallow embedding in Lean.

Conventions of the embedding:
* Rust `u64` / `usize` values are modelled as `Nat`; Rust saturating
  operations coincide with truncated `Nat` subtraction / plain addition, and
  the one place where release-mode wrapping arithmetic is observable
  (`parse_timestamp`) takes an explicit `% 2 ^ 64`.
* `std::time::Instant` is modelled as a millisecond timestamp (`Nat`).
* Rust `&str` values flowing through the lyric parser are modelled as
  `List Char`; indices are character indices, which agree with Rust's byte
  indices on the ASCII timestamp prefixes the parser slices.
* Fallible operations return `Option`, mirroring the Rust `Option` code.
-/

set_option maxHeartbeats 1000000

namespace Termony

/-- A single timed lyric line (src/lyrics.rs, `struct LyricLine`). -/
structure LyricLine where
  timestamp_ms : Nat
  text : String
deriving DecidableEq

/-- Playback state of the external player (src/player.rs, `enum PlayerState`). -/
inductive PlayerState where
  | playing
  | paused
  | stopped
deriving DecidableEq

/-- Track metadata polled from the player (src/player.rs, `struct TrackInfo`). -/
structure TrackInfo where
  name : String
  artist : String
  album : String
  artwork_url : Option String
  duration_ms : Nat
  position_ms : Nat
  state : PlayerState
  source : String
deriving DecidableEq

/-- Artwork slot of the application state (src/app.rs, `enum ArtworkState`).
The decoded image payload of `Loaded` is irrelevant to every claim, so the
constructor is modelled without it. -/
inductive ArtworkState where
  | idle
  | loading
  | loaded
  | failed
deriving DecidableEq

/-- The event-relevant fields of the application state (src/app.rs,
`struct App`).  The purely presentational fields (theme, button rectangles,
hitboxes, cache) are never read or written by the scroll / lyrics / tick
handlers modelled here and are omitted. -/
structure App where
  is_running : Bool
  track : Option TrackInfo
  lyrics : Option (List LyricLine)
  artwork : ArtworkState
  lyrics_offset : Option Nat
  last_scroll_time : Option Nat
deriving DecidableEq

/-! ## Lyric transcript parsing (src/lyrics.rs) -/

/-- The lrclib response handed to `parse` (src/lyrics.rs,
`struct LrclibResponse`). -/
structure LrclibResponse where
  synced_lyrics : Option String
  plain_lyrics : Option String
deriving DecidableEq

/-- Numeric value of an ASCII digit. -/
def digitVal (c : Char) : Nat := c.toNat - 48

/-- Value of a digit string, most significant digit first. -/
def digitsToNat (cs : List Char) : Nat :=
  cs.foldl (fun acc c => acc * 10 + digitVal c) 0

/-- Number of values of `u64`. -/
def u64Size : Nat := 2 ^ 64

/-- Models `str::parse::<u64>`: an optional leading plus sign followed by one
or more ASCII digits, failing when the value does not fit in `u64`. -/
def parseU64 (s : List Char) : Option Nat :=
  let ds := if s.head? = some '+' then s.tail else s
  if ds ≠ [] ∧ ds.all (fun c => c.isDigit) then
    if digitsToNat ds < u64Size then some (digitsToNat ds) else none
  else none

/-- Models `str::split(sep)`: the list of (possibly empty) pieces between
occurrences of `sep`; never returns the empty list. -/
def splitOnChar (sep : Char) : List Char → List (List Char)
  | [] => [[]]
  | c :: cs =>
      if c = sep then [] :: splitOnChar sep cs
      else
        match splitOnChar sep cs with
        | [] => [[c]]
        | piece :: rest => (c :: piece) :: rest

/-- The fractional part of a timestamp (src/lyrics.rs, `parse_timestamp`,
lines 116-125): absent fraction contributes 0; a 2-character fraction is
centiseconds (value × 10); any other length is used verbatim.  Only
`sec_parts[1]` is consulted, exactly as in the source. -/
def fracPart (fracs : List (List Char)) : Option Nat :=
  match fracs with
  | [] => some 0
  | frac :: _ =>
      match parseU64 frac with
      | none => none
      | some v => some (if frac.length = 2 then v * 10 else v)

/-- Models `LyricsFetcher::parse_timestamp` (src/lyrics.rs, lines 108-128).
The final `min * 60000 + sec * 1000 + ms` is release-mode `u64` arithmetic,
hence the explicit wrap. -/
def parse_timestamp (ts : List Char) : Option Nat :=
  match splitOnChar ':' ts with
  | [p0, p1] =>
      match parseU64 p0, splitOnChar '.' p1 with
      | some mn, s0 :: fracs =>
          match parseU64 s0, fracPart fracs with
          | some sec, some ms => some ((mn * 60000 + sec * 1000 + ms) % u64Size)
          | _, _ => none
      | _, _ => none
  | _ => none

/-- Models `str::trim` (whitespace stripped from both ends). -/
def rustTrim (s : List Char) : List Char :=
  ((s.dropWhile Char.isWhitespace).reverse.dropWhile Char.isWhitespace).reverse

/-- Models `Iterator::position`: index of the first element satisfying `p`. -/
def position {α : Type} (p : α → Bool) : List α → Option Nat
  | [] => none
  | x :: xs => if p x then some 0 else (position p xs).map (fun i => i + 1)

/-- Models `str::lines` (accumulator holds the current line reversed): split
at newline characters; a terminating `"\r\n"` is treated as a line ending; a
final line ending is optional and produces no trailing empty line. -/
def rustLinesAux : List Char → List Char → List (List Char)
  | [], acc =>
      match acc with
      | [] => []
      | _ => [acc.reverse]
  | c :: rest, acc =>
      if c = '\n' then
        (match acc with
         | '\r' :: acc2 => acc2.reverse
         | _ => acc.reverse) :: rustLinesAux rest []
      else rustLinesAux rest (c :: acc)

/-- Models `str::lines` on a string. -/
def rustLines (s : String) : List (List Char) := rustLinesAux s.data []

/-- The per-line body of the parse loop (src/lyrics.rs, lines 85-96): a line
contributes a `LyricLine` exactly when it contains `']'`, starts with `'['`,
and the bracketed prefix parses as a timestamp; the text after the bracket is
trimmed. -/
def parseLine (line : List Char) : Option LyricLine :=
  match position (fun c => c = ']') line with
  | some idx =>
      match line with
      | '[' :: restLine =>
          match parse_timestamp (restLine.take (idx - 1)) with
          | some ms =>
              some { timestamp_ms := ms, text := String.mk (rustTrim (line.drop (idx + 1))) }
          | none => none
      | _ => none
  | none => none

/-- Models `LyricsFetcher::parse` (src/lyrics.rs, lines 78-106): the raw
transcript is `synced_lyrics.or(plain_lyrics)` (propagating `None`); the push
loop is an order-preserving `filterMap`; the result is `None` exactly when no
timed line was recovered.  (The `if lines.is_empty() && !raw.is_empty()` block
at lines 98-103 has an empty body and is omitted.) -/
def parse (data : LrclibResponse) : Option (List LyricLine) :=
  match data.synced_lyrics.or data.plain_lyrics with
  | none => none
  | some raw =>
      let lines := (rustLines raw).filterMap parseLine
      if lines.isEmpty then none else some lines

/-! ## Natural index (src/ui.rs lines 394-397, src/main.rs lines 199-203 and
319-322) -/

/-- The predicate `|l| l.timestamp_ms > pos` of the three `position` scans. -/
def tsAfter (pos : Nat) (ln : LyricLine) : Bool := decide (pos < ln.timestamp_ms)

/-- The natural-index computation of the manual-scroll seed (src/main.rs,
lines 199-203 and 215-219) and of the animation-tick target (lines 319-322):
`position(ts > pos)` mapped through `i > 0 ? i - 1 : 0`, defaulting to 0 when
every timestamp is ≤ `pos`. -/
def naturalIdxMain (lyrics : List LyricLine) (pos : Nat) : Nat :=
  ((position (tsAfter pos) lyrics).map (fun i => if 0 < i then i - 1 else 0)).getD 0

/-- The natural-index computation of the viewport renderer (src/ui.rs, lines
394-397): same scan, but defaulting to the last line's index when every
timestamp is ≤ `pos`. -/
def naturalIdxUi (lyrics : List LyricLine) (pos : Nat) : Nat :=
  ((position (tsAfter pos) lyrics).map (fun i => if 0 < i then i - 1 else 0)).getD
    (lyrics.length - 1)

/-- Default line used when indexing in the specification-side definition. -/
def dLine : LyricLine := { timestamp_ms := 0, text := String.mk [] }

/-- Specification-side definition, following the spec's words: the greatest
line index whose timestamp is ≤ the playback position, and 0 when no line
qualifies. -/
def specNaturalIdx (lyrics : List LyricLine) (pos : Nat) : Nat :=
  (((List.range lyrics.length).filter
      (fun i => decide ((lyrics.getD i dLine).timestamp_ms ≤ pos))).getLastD 0)

/-! ## Event-loop handlers (src/main.rs) -/

/-- The auto-reset check at the top of the event loop (src/main.rs, lines
154-160): once 3 whole seconds have elapsed since the last scroll input, the
`last_scroll_time` flag is dropped so the tick animation can take over.  The
current instant is passed as `now`; `elapsed().as_secs()` is `(now - t) / 1000`. -/
def autoResetScroll (app : App) (now : Nat) : App :=
  match app.last_scroll_time with
  | some t => if 3 ≤ (now - t) / 1000 then { app with last_scroll_time := none } else app
  | none => app

/-- The seeding step shared by both scroll handlers (src/main.rs, lines
199-205 and 215-221): when no manual offset exists, seed it from the natural
index of the current playback position. -/
def scrollSeed (lyrics : List LyricLine) (track : TrackInfo) (app : App) : App :=
  if app.lyrics_offset.isNone then
    { app with lyrics_offset := some (naturalIdxMain lyrics track.position_ms) }
  else app

/-- The offset update of the `ScrollDown` handler (src/main.rs, lines
207-209): saturating increment clamped to `len - 1`. -/
def scrollStepDown (lyrics : List LyricLine) (app : App) : App :=
  match app.lyrics_offset with
  | some off => { app with lyrics_offset := some (min (off + 1) (lyrics.length - 1)) }
  | none => app

/-- The offset update of the `ScrollUp` handler (src/main.rs, lines 223-225):
saturating decrement. -/
def scrollStepUp (app : App) : App :=
  match app.lyrics_offset with
  | some off => { app with lyrics_offset := some (off - 1) }
  | none => app

/-- The `MouseEventKind::ScrollDown` arm (src/main.rs, lines 197-212):
requires both lyrics and a current track, seeds the offset if absent,
increments with clamping, and refreshes `last_scroll_time`. -/
def handleScrollDown (app : App) (now : Nat) : App :=
  match app.lyrics, app.track with
  | some lyrics, some track =>
      { scrollStepDown lyrics (scrollSeed lyrics track app) with last_scroll_time := some now }
  | _, _ => app

/-- The `MouseEventKind::ScrollUp` arm (src/main.rs, lines 213-228). -/
def handleScrollUp (app : App) (now : Nat) : App :=
  match app.lyrics, app.track with
  | some lyrics, some track =>
      { scrollStepUp (scrollSeed lyrics track app) with last_scroll_time := some now }
  | _, _ => app

/-- The `AppEvent::LyricsUpdate` arm (src/main.rs, line 311): the payload is
installed unconditionally. -/
def handleLyricsUpdate (app : App) (lyr : Option (List LyricLine)) : App :=
  { app with lyrics := lyr }

/-- The `AppEvent::Tick` arm (src/main.rs, lines 314-337): when not in the
3-second hold and a manual offset exists, move it one line toward the natural
index of the current position, clearing it on arrival. -/
def tickStep (app : App) : App :=
  if app.last_scroll_time.isNone && app.lyrics_offset.isSome then
    match app.lyrics, app.track with
    | some lyrics, some track =>
        match app.lyrics_offset with
        | some curr =>
            if curr < naturalIdxMain lyrics track.position_ms then
              { app with lyrics_offset := some (curr + 1) }
            else if naturalIdxMain lyrics track.position_ms < curr then
              { app with lyrics_offset := some (curr - 1) }
            else
              { app with lyrics_offset := none }
        | none => app
    | _, _ => app
  else app

/-- `n` consecutive animation ticks. -/
def applyTicks : Nat → App → App
  | 0, app => app
  | n + 1, app => applyTicks n (tickStep app)

/-- A scroll-engine operation, for stating sequence invariants. -/
inductive ScrollOp where
  | down (now : Nat)
  | up (now : Nat)
  | tick

/-- Apply a single scroll-engine operation. -/
def applyOp (app : App) : ScrollOp → App
  | .down now => handleScrollDown app now
  | .up now => handleScrollUp app now
  | .tick => tickStep app

/-- Apply a sequence of scroll-engine operations, left to right. -/
def applyOps (app : App) : List ScrollOp → App
  | [] => app
  | op :: ops => applyOps (applyOp app op) ops

/-! ## Artwork rasterizer (src/artwork.rs) -/

/-- An RGB color; `get_pixel` channel values. -/
abbrev Rgb := Nat × Nat × Nat

/-- A decoded bitmap: dimensions plus a pixel lookup. -/
structure Bitmap where
  width : Nat
  height : Nat
  pix : Nat → Nat → Rgb

/-- Models `DynamicImage::resize_exact(w, h, Lanczos3)` from the external
`image` crate: the output has exactly the requested dimensions, and its pixel
values are produced by the library's resampling kernel.  The kernel's
floating-point arithmetic lives outside the repository, so it is kept
abstract as an explicit function parameter; every theorem below holds for an
arbitrary kernel. -/
def resizeExact (kernel : Bitmap → Nat → Nat → Nat → Nat → Rgb) (img : Bitmap)
    (w h : Nat) : Bitmap :=
  { width := w, height := h, pix := kernel img w h }

/-- Models the grid construction of `ArtworkRenderer::render_from_url`
(src/artwork.rs, lines 28-52), starting from the decoded bitmap: resize to
`width × height * 2`, then fold source rows `2r` and `2r + 1` into one cell
per column, top pixel as foreground and bottom pixel as background.  The loop
`for y in (0..height * 2).step_by(2)` is the map over `y = 2 * r` for
`r < height`. -/
def renderGrid (kernel : Bitmap → Nat → Nat → Nat → Nat → Rgb) (img : Bitmap)
    (width height : Nat) : List (List (Rgb × Rgb)) :=
  (List.range height).map (fun r =>
    (List.range width).map (fun x =>
      let resized := resizeExact kernel img width (height * 2)
      let p1 := resized.pix x (2 * r)
      let p2 := if 2 * r + 1 < height * 2 then resized.pix x (2 * r + 1) else p1
      (p1, p2)))

/-! ## Concrete fixtures for counterexamples and witnesses -/

/-- A concrete current track, positioned at the start of the song. -/
def exTrack : TrackInfo :=
  { name := "Song", artist := "Artist", album := "Album", artwork_url := none,
    duration_ms := 200000, position_ms := 0, state := .playing, source := "Spotify" }

/-- A concrete sorted three-line timeline. -/
def exTimeline : List LyricLine :=
  [{ timestamp_ms := 1000, text := "a" }, { timestamp_ms := 2000, text := "b" },
   { timestamp_ms := 3000, text := "c" }]

/-- A concrete sorted six-line timeline. -/
def exTimeline6 : List LyricLine :=
  [{ timestamp_ms := 1000, text := "l1" }, { timestamp_ms := 2000, text := "l2" },
   { timestamp_ms := 3000, text := "l3" }, { timestamp_ms := 4000, text := "l4" },
   { timestamp_ms := 5000, text := "l5" }, { timestamp_ms := 6000, text := "l6" }]

/-- The lyrics payload of a stale fetch for a superseded track. -/
def exStaleLyrics : List LyricLine := [{ timestamp_ms := 0, text := "stale" }]

/-- A state with no track and no lyrics loaded. -/
def exAppIdle : App :=
  { is_running := true, track := none, lyrics := none, artwork := .idle,
    lyrics_offset := none, last_scroll_time := none }

/-- A state in manual-scroll hold: offset 5, last scroll input at instant 0. -/
def exAppManual : App :=
  { is_running := true, track := some exTrack, lyrics := some exTimeline6,
    artwork := .idle, lyrics_offset := some 5, last_scroll_time := some 0 }

/-- A state on the current track with its own lyrics displayed. -/
def exAppCurrent : App :=
  { is_running := true, track := some exTrack, lyrics := some exTimeline,
    artwork := .idle, lyrics_offset := none, last_scroll_time := none }

/-- A concrete constant resampling kernel. -/
def exKernel : Bitmap → Nat → Nat → Nat → Nat → Rgb := fun _ _ _ _ _ => (0, 0, 0)

/-- A concrete one-pixel bitmap. -/
def exBitmap : Bitmap := { width := 1, height := 1, pix := fun _ _ => (0, 0, 0) }

/-- A manual state whose hold timer has already been cleared, mid-glide at
offset 3. -/
def exAppConverging : App :=
  { is_running := true, track := some exTrack, lyrics := some exTimeline6,
    artwork := .idle, lyrics_offset := some 3, last_scroll_time := none }

/-- `position` with the list length as default, i.e. the index of the first
element satisfying `p`, or the length when there is none. -/
def posD {α : Type} (p : α → Bool) (l : List α) : Nat :=
  (position p l).getD l.length

/-- The pure offset transformation performed by one animation tick, as a
function of the target index. -/
def stepToward (t : Nat) : Option Nat → Option Nat
  | none => none
  | some c => if c < t then some (c + 1) else if t < c then some (c - 1) else none

/-- `n`-fold iteration of `stepToward`. -/
def stepTowardN (t : Nat) : Nat → Option Nat → Option Nat
  | 0, x => x
  | n + 1, x => stepTowardN t n (stepToward t x)

/-- The claimed invariant: whenever a manual offset exists, it is at most
`line_count - 1` for the loaded lyrics (the lower bound 0 is inherent: the
offset is a `usize`, and the only decrement is saturating). -/
def OffsetInv (app : App) : Prop :=
  ∀ L o, app.lyrics = some L → app.lyrics_offset = some o → o ≤ L.length - 1

/-- The value the scroll handlers operate on after seeding: the existing
offset, or the natural index when none exists. -/
def scrollSeedVal (app : App) (lyrics : List LyricLine) (track : TrackInfo) : Nat :=
  match app.lyrics_offset with
  | none => naturalIdxMain lyrics track.position_ms
  | some o => o

/-- The timed lines recovered from a raw transcript: the parse loop's output. -/
def timedLines (raw : String) : List LyricLine :=
  (rustLines raw).filterMap parseLine

/-- The text `mm:ss` or `mm:ss.f` assembled from a minute digit string, a
second digit string, and an optional fraction digit string. -/
def tsString (m s : List Char) (f : Option (List Char)) : List Char :=
  m ++ ':' :: (s ++ (match f with | none => [] | some fr => '.' :: fr))

/-- The claimed fractional contribution in milliseconds: 0 when absent, the
literal × 10 for a 2-digit fraction, the literal verbatim otherwise. -/
def fracMsSpec (f : Option (List Char)) : Nat :=
  match f with
  | none => 0
  | some fr => if fr.length = 2 then digitsToNat fr * 10 else digitsToNat fr

/-! ## Lemmas about `position` and the natural index -/

theorem posD_cons {α : Type} (p : α → Bool) (x : α) (xs : List α) :
    posD p (x :: xs) = if p x then 0 else posD p xs + 1 := by
  cases h : p x
  · cases hp : position p xs <;> simp [posD, position, h, hp]
  · simp [posD, position, h]

theorem position_lt_length {α : Type} (p : α → Bool) :
    ∀ (l : List α) (i : Nat), position p l = some i → i < l.length := by
  intro l
  induction l with
  | nil => intro i h; simp [position] at h
  | cons x xs ih =>
      intro i h
      rw [position] at h
      cases hx : p x
      · simp [hx] at h
        obtain ⟨j, hj, hji⟩ := h
        have := ih j hj
        simp
        omega
      · simp [hx] at h
        simp
        omega

theorem posD_le_length {α : Type} (p : α → Bool) (l : List α) :
    posD p l ≤ l.length := by
  cases h : position p l with
  | none => simp [posD, h]
  | some i => simp [posD, h]; exact Nat.le_of_lt (position_lt_length p l i h)

theorem position_eq_none_iff {α : Type} (p : α → Bool) (l : List α) :
    position p l = none ↔ ∀ x ∈ l, p x = false := by
  induction l with
  | nil => simp [position]
  | cons x xs ih =>
      cases h : p x
      · simp [position, h, ih]
      · simp [position, h]

theorem posD_lt_elem {α : Type} (p : α → Bool) (d : α) :
    ∀ (l : List α) (i : Nat), i < posD p l → p (l.getD i d) = false := by
  intro l
  induction l with
  | nil => intro i h; simp [posD, position] at h
  | cons x xs ih =>
      intro i h
      rw [posD_cons] at h
      cases hx : p x
      · simp [hx] at h
        cases i with
        | zero => simpa using hx
        | succ j => exact ih j (by omega)
      · simp [hx] at h

theorem posD_get_elem {α : Type} (p : α → Bool) (d : α) :
    ∀ (l : List α), posD p l < l.length → p (l.getD (posD p l) d) = true := by
  intro l
  induction l with
  | nil => intro h; simp [posD, position] at h
  | cons x xs ih =>
      intro h
      rw [posD_cons] at h ⊢
      cases hx : p x
      · simp [hx] at h ⊢
        have := ih (by omega)
        simpa using this
      · simp [hx]

theorem posD_mono {α : Type} (p q : α → Bool)
    (himp : ∀ x, q x = true → p x = true) (l : List α) :
    posD p l ≤ posD q l := by
  induction l with
  | nil => simp [posD, position]
  | cons x xs ih =>
      rw [posD_cons, posD_cons]
      cases hq : q x
      · cases hp : p x
        · simp [hp, hq]
          omega
        · simp [hp]
      · simp [himp x hq, hq]

theorem naturalIdxUi_eq_posD (l : List LyricLine) (pos : Nat) :
    naturalIdxUi l pos = posD (tsAfter pos) l - 1 := by
  cases h : position (tsAfter pos) l with
  | none => simp [naturalIdxUi, posD, h]
  | some i => cases i <;> simp [naturalIdxUi, posD, h]

theorem naturalIdxMain_eq_ui (l : List LyricLine) (pos : Nat)
    (h : position (tsAfter pos) l ≠ none) :
    naturalIdxMain l pos = naturalIdxUi l pos := by
  cases hp : position (tsAfter pos) l with
  | none => exact absurd hp h
  | some i => simp [naturalIdxMain, naturalIdxUi, hp]

theorem filter_range_eq_range (q : Nat → Bool) (n k : Nat) (hk : k ≤ n)
    (hq : ∀ i, i < n → q i = decide (i < k)) :
    (List.range n).filter q = List.range k := by
  induction n generalizing k with
  | zero =>
      have : k = 0 := Nat.le_zero.mp hk
      simp [this]
  | succ n ih =>
      rcases Nat.lt_or_ge k (n + 1) with hlt | hge
      · have hk' : k ≤ n := Nat.lt_succ_iff.mp hlt
        rw [List.range_succ, List.filter_append]
        rw [ih k hk' (fun i hi => hq i (Nat.lt_succ_of_lt hi))]
        have hqn : q n = false := by
          rw [hq n (Nat.lt_succ_self n)]
          exact decide_eq_false (by omega)
        simp [hqn]
      · have hk1 : k = n + 1 := Nat.le_antisymm hk hge
        subst hk1
        rw [List.range_succ, List.filter_append]
        rw [ih n (Nat.le_refl n) (fun i hi => by
          rw [hq i (Nat.lt_succ_of_lt hi), decide_eq_decide]
          exact iff_of_true (Nat.lt_succ_of_lt hi) hi)]
        have hqn : q n = true := by
          rw [hq n (Nat.lt_succ_self n)]
          exact decide_eq_true (Nat.lt_succ_self n)
        simp [hqn, List.range_succ]

theorem sorted_getD_mono (l : List LyricLine)
    (hs : l.Pairwise (fun a b => a.timestamp_ms ≤ b.timestamp_ms))
    (i j : Nat) (hij : i ≤ j) (hj : j < l.length) :
    (l.getD i dLine).timestamp_ms ≤ (l.getD j dLine).timestamp_ms := by
  rcases Nat.eq_or_lt_of_le hij with rfl | hlt
  · exact Nat.le_refl _
  · have hi : i < l.length := Nat.lt_trans hlt hj
    have hrel := List.pairwise_iff_get.mp hs ⟨i, hi⟩ ⟨j, hj⟩ hlt
    rw [List.getD_eq_getElem l dLine hi, List.getD_eq_getElem l dLine hj]
    simpa [List.get_eq_getElem] using hrel

theorem spec_filter_eq (l : List LyricLine) (pos : Nat)
    (hs : l.Pairwise (fun a b => a.timestamp_ms ≤ b.timestamp_ms)) :
    (List.range l.length).filter
        (fun i => decide ((l.getD i dLine).timestamp_ms ≤ pos))
      = List.range (posD (tsAfter pos) l) := by
  apply filter_range_eq_range _ _ _ (posD_le_length _ l)
  intro i hi
  show decide ((l.getD i dLine).timestamp_ms ≤ pos) = decide (i < posD (tsAfter pos) l)
  rw [decide_eq_decide]
  by_cases hik : i < posD (tsAfter pos) l
  · have hfalse := posD_lt_elem (tsAfter pos) dLine l i hik
    have hts : (l.getD i dLine).timestamp_ms ≤ pos :=
      Nat.not_lt.mp (by simpa [tsAfter] using hfalse)
    exact iff_of_true hts hik
  · have hik' : posD (tsAfter pos) l ≤ i := Nat.not_lt.mp hik
    have hkl : posD (tsAfter pos) l < l.length := Nat.lt_of_le_of_lt hik' hi
    have h1 := posD_get_elem (tsAfter pos) dLine l hkl
    have h1' : pos < (l.getD (posD (tsAfter pos) l) dLine).timestamp_ms := by
      simpa [tsAfter] using h1
    have h2 := sorted_getD_mono l hs _ i hik' hi
    have hts : ¬ (l.getD i dLine).timestamp_ms ≤ pos := by omega
    exact iff_of_false hts hik

theorem getLastD_range (k : Nat) : (List.range k).getLastD 0 = k - 1 := by
  cases k with
  | zero => simp
  | succ n => rw [List.range_succ]; simp

theorem specNaturalIdx_eq_posD (l : List LyricLine) (pos : Nat)
    (hs : l.Pairwise (fun a b => a.timestamp_ms ≤ b.timestamp_ms)) :
    specNaturalIdx l pos = posD (tsAfter pos) l - 1 := by
  unfold specNaturalIdx
  rw [spec_filter_eq l pos hs, getLastD_range]

/-! ## C1: the 3000 ms timeout -/

/-- C1 counterexample: in the code a manual state is `lyrics_offset.isSome`
(the renderer pins the viewport exactly when the offset exists, and the tick
animation runs only on an existing offset).  At 3000 ms elapsed with no ticks
the loop-top check clears only `last_scroll_time`; the manual offset 5 — far
from the natural index 0 — survives, so the state has not transitioned to
Auto and the offset was not cleared outright, contradicting the claim. -/
theorem c1_timeout_counterexample :
    (autoResetScroll exAppManual 3000).last_scroll_time = none ∧
    (autoResetScroll exAppManual 3000).lyrics_offset = some 5 ∧
    naturalIdxMain exTimeline6 exTrack.position_ms = 0 := by decide

/-- C1 amended: once 3000 ms have elapsed since the last scroll input, the
loop-top check clears only the `last_scroll_time` flag — re-enabling the
per-tick convergence animation — and leaves the manual offset (and the rest
of the state) untouched; the offset is not cleared outright. -/
theorem c1_timeout_clears_only_timer (app : App) (now t : Nat)
    (h : app.last_scroll_time = some t) (helapsed : 3 ≤ (now - t) / 1000) :
    (autoResetScroll app now).last_scroll_time = none ∧
    (autoResetScroll app now).lyrics_offset = app.lyrics_offset ∧
    (autoResetScroll app now).lyrics = app.lyrics ∧
    (autoResetScroll app now).track = app.track := by
  simp [autoResetScroll, h, helapsed]

/-- C1 witness: the amended theorem applied to the concrete manual-hold
state at instant 3000. -/
theorem c1_timeout_clears_only_timer_witness :
    (autoResetScroll exAppManual 3000).last_scroll_time = none ∧
    (autoResetScroll exAppManual 3000).lyrics_offset = exAppManual.lyrics_offset ∧
    (autoResetScroll exAppManual 3000).lyrics = exAppManual.lyrics ∧
    (autoResetScroll exAppManual 3000).track = exAppManual.track :=
  c1_timeout_clears_only_timer exAppManual 3000 0 rfl (by decide)

/-! ## C2: stale lyrics results -/

/-- C2 counterexample: the `LyricsUpdate` event carries no track identity, and
the handler installs its payload unconditionally.  Here a result fetched for a
superseded track is installed into the state of the (unchanged) current track,
replacing the current track's lyrics — a stale result is installed, and the
displayed lyrics state changes, contradicting the claim. -/
theorem c2_stale_lyrics_installed_counterexample :
    (handleLyricsUpdate exAppCurrent (some exStaleLyrics)).lyrics = some exStaleLyrics ∧
    (handleLyricsUpdate exAppCurrent (some exStaleLyrics)).track = exAppCurrent.track ∧
    some exStaleLyrics ≠ exAppCurrent.lyrics := by decide

/-- C2 amended: the `LyricsUpdate` handler performs no identity comparison
whatsoever: it installs the incoming payload into `app.lyrics` unconditionally
(leaving the other fields unchanged).  A late result for a superseded track is
therefore installed, not discarded; the only mitigation in the code is that a
track change clears `app.lyrics` and spawns a fresh fetch whose result later
overwrites the stale one. -/
theorem c2_lyrics_update_unconditional (app : App) (lyr : Option (List LyricLine)) :
    (handleLyricsUpdate app lyr).lyrics = lyr ∧
    (handleLyricsUpdate app lyr).track = app.track ∧
    (handleLyricsUpdate app lyr).lyrics_offset = app.lyrics_offset ∧
    (handleLyricsUpdate app lyr).last_scroll_time = app.last_scroll_time :=
  ⟨rfl, rfl, rfl, rfl⟩

/-! ## C3: the natural-index characterization -/

/-- C3 counterexample: on the sorted timeline with timestamps 1000, 2000,
3000 and playback position 3500 — which exceeds every timestamp — the
manual-scroll seed / animation-tick computation (src/main.rs) yields 0, while
the claim demands the last line's index, 2 (which is also the greatest index
whose timestamp is ≤ 3500, as the specification-side function shows). -/
theorem c3_natural_index_seed_counterexample :
    naturalIdxMain exTimeline 3500 = 0 ∧ specNaturalIdx exTimeline 3500 = 2 ∧
    exTimeline.length - 1 = 2 := by decide

/-- C3 amended: for sorted timelines the viewport renderer's natural index
(src/ui.rs) is exactly the greatest line index whose timestamp is ≤ the
playback position (0 when no line qualifies, hence the last index when the
position exceeds every timestamp).  The manual-scroll seed and animation-tick
target (src/main.rs) agree with it whenever some line's timestamp exceeds the
position, but fall back to 0 — not the last index — when every timestamp is
≤ the position. -/
theorem c3_natural_index_corrected (l : List LyricLine) (pos : Nat)
    (hs : l.Pairwise (fun a b => a.timestamp_ms ≤ b.timestamp_ms)) :
    naturalIdxUi l pos = specNaturalIdx l pos ∧
    ((∃ ln ∈ l, pos < ln.timestamp_ms) → naturalIdxMain l pos = specNaturalIdx l pos) ∧
    ((∀ ln ∈ l, ln.timestamp_ms ≤ pos) → naturalIdxMain l pos = 0) := by
  have h1 : naturalIdxUi l pos = specNaturalIdx l pos := by
    rw [naturalIdxUi_eq_posD, specNaturalIdx_eq_posD l pos hs]
  refine ⟨h1, ?_, ?_⟩
  · rintro ⟨ln, hmem, hlt⟩
    have hne : position (tsAfter pos) l ≠ none := by
      intro hnone
      have := (position_eq_none_iff (tsAfter pos) l).mp hnone ln hmem
      simp [tsAfter] at this
      omega
    rw [naturalIdxMain_eq_ui l pos hne, h1]
  · intro hall
    have hnone : position (tsAfter pos) l = none := by
      rw [position_eq_none_iff]
      intro x hx
      simp [tsAfter]
      exact hall x hx
    simp [naturalIdxMain, hnone]

/-- C3 witness: the amended theorem applied to the concrete sorted timeline
at position 2500. -/
theorem c3_natural_index_corrected_witness :
    naturalIdxUi exTimeline 2500 = specNaturalIdx exTimeline 2500 :=
  (c3_natural_index_corrected exTimeline 2500 (by decide)).1

/-! ## C8: natural-index monotonicity -/

/-- C8 counterexample: the natural index as computed in src/main.rs (scroll
seed and tick target) is not monotone in the playback position, even on a
sorted timeline: at position 2500 it is 1, but at the later position 3500 —
past the last timestamp — it falls back to 0. -/
theorem c8_main_not_monotone_counterexample :
    (2500 : Nat) ≤ 3500 ∧ naturalIdxMain exTimeline 2500 = 1 ∧
    naturalIdxMain exTimeline 3500 = 0 := by decide

/-- C8 amended: the viewport renderer's natural index (src/ui.rs, which falls
back to the last line's index once the position passes every timestamp) is
monotone in the playback position, for every timeline; the src/main.rs
variant used for scroll seeding and tick targets is not. -/
theorem c8_natural_index_ui_monotone (l : List LyricLine) (t1 t2 : Nat)
    (h : t1 ≤ t2) :
    naturalIdxUi l t1 ≤ naturalIdxUi l t2 := by
  rw [naturalIdxUi_eq_posD, naturalIdxUi_eq_posD]
  apply Nat.sub_le_sub_right
  apply posD_mono
  intro x hx
  simp [tsAfter] at hx ⊢
  omega

/-- C8 witness: monotonicity at the concrete pair 1500 ≤ 3500 on the
concrete timeline. -/
theorem c8_natural_index_ui_monotone_witness :
    naturalIdxUi exTimeline 1500 ≤ naturalIdxUi exTimeline 3500 :=
  c8_natural_index_ui_monotone exTimeline 1500 3500 (by decide)

/-! ## C4: tick convergence -/

theorem app_eta_offset (app : App) (x : Option Nat) (h : app.lyrics_offset = x) :
    { app with lyrics_offset := x } = app := by
  subst h
  rfl

theorem tickStep_eq (app : App) (L : List LyricLine) (T : TrackInfo)
    (hl : app.lyrics = some L) (ht : app.track = some T)
    (hs : app.last_scroll_time = none) :
    tickStep app =
      { app with lyrics_offset :=
          stepToward (naturalIdxMain L T.position_ms) app.lyrics_offset } := by
  cases ho : app.lyrics_offset with
  | none =>
      rw [show stepToward (naturalIdxMain L T.position_ms) none = none from rfl]
      rw [app_eta_offset app none ho]
      simp [tickStep, hs, ho]
  | some c =>
      by_cases h1 : c < naturalIdxMain L T.position_ms
      · simp [tickStep, hs, ho, hl, ht, stepToward, h1]
      · by_cases h2 : naturalIdxMain L T.position_ms < c
        · simp [tickStep, hs, ho, hl, ht, stepToward, h1, h2]
        · simp [tickStep, hs, ho, hl, ht, stepToward, h1, h2]

theorem applyTicks_eq (n : Nat) (app : App) (L : List LyricLine) (T : TrackInfo)
    (hl : app.lyrics = some L) (ht : app.track = some T)
    (hs : app.last_scroll_time = none) :
    applyTicks n app =
      { app with lyrics_offset :=
          stepTowardN (naturalIdxMain L T.position_ms) n app.lyrics_offset } := by
  induction n generalizing app with
  | zero => exact (app_eta_offset app _ rfl).symm
  | succ n ih =>
      show applyTicks n (tickStep app) = _
      rw [tickStep_eq app L T hl ht hs]
      exact ih ({ app with lyrics_offset := stepToward (naturalIdxMain L T.position_ms) app.lyrics_offset }) (by simpa using hl) (by simpa using ht) (by simpa using hs)

theorem stepTowardN_none (t n : Nat) : stepTowardN t n none = none := by
  induction n with
  | zero => rfl
  | succ n ih => exact ih

theorem stepTowardN_succ_out (t : Nat) :
    ∀ (n : Nat) (x : Option Nat),
      stepTowardN t (n + 1) x = stepToward t (stepTowardN t n x) := by
  intro n
  induction n with
  | zero => intro x; rfl
  | succ n ih => intro x; exact ih (stepToward t x)

theorem stepTowardN_add (t : Nat) :
    ∀ (a b : Nat) (x : Option Nat),
      stepTowardN t (a + b) x = stepTowardN t a (stepTowardN t b x) := by
  intro a b
  induction b generalizing a with
  | zero => intro x; rfl
  | succ b ih =>
      intro x
      show stepTowardN t (a + b) (stepToward t x) =
        stepTowardN t a (stepTowardN t b (stepToward t x))
      exact ih a (stepToward t x)

theorem stepTowardN_up (t : Nat) :
    ∀ (n o : Nat), o ≤ t → n ≤ t - o → stepTowardN t n (some o) = some (o + n) := by
  intro n
  induction n with
  | zero => intro o _ _; rfl
  | succ n ih =>
      intro o ho hn
      have hlt : o < t := by omega
      show stepTowardN t n (stepToward t (some o)) = _
      rw [show stepToward t (some o) = some (o + 1) by simp [stepToward, hlt]]
      rw [ih (o + 1) (by omega) (by omega)]
      congr 1
      omega

theorem stepTowardN_down (t : Nat) :
    ∀ (n o : Nat), t ≤ o → n ≤ o - t → stepTowardN t n (some o) = some (o - n) := by
  intro n
  induction n with
  | zero => intro o _ _; rfl
  | succ n ih =>
      intro o ho hn
      have hlt : t < o := by omega
      show stepTowardN t n (stepToward t (some o)) = _
      rw [show stepToward t (some o) = some (o - 1) by
        simp [stepToward, hlt, Nat.not_lt.mpr (Nat.le_of_lt hlt)]]
      rw [ih (o - 1) (by omega) (by omega)]
      congr 1
      omega

theorem stepTowardN_term (t o : Nat) :
    stepTowardN t (max o t - min o t + 1) (some o) = none := by
  rcases Nat.le_total o t with h | h
  · rw [stepTowardN_succ_out]
    rw [stepTowardN_up t _ o h (by omega)]
    have : o + (max o t - min o t) = t := by omega
    rw [this]
    simp [stepToward]
  · rw [stepTowardN_succ_out]
    rw [stepTowardN_down t _ o h (by omega)]
    have : o - (max o t - min o t) = t := by omega
    rw [this]
    simp [stepToward]

/-- C4 counterexample: in the code the tick animation only runs once
`last_scroll_time` has been cleared by the 3-second timeout.  In a manual
state where the timeout has not yet fired (`last_scroll_time = some 0`),
ticks are no-ops: with offset 5 and natural index 0, the claim's bound of
`|5 - 0| + 1 = 6` ticks leaves the offset at 5 and the state is not Auto. -/
theorem c4_tick_noop_before_timeout_counterexample :
    (applyTicks 6 exAppManual).lyrics_offset = some 5 ∧
    naturalIdxMain exTimeline6 exTrack.position_ms = 0 ∧
    exAppManual.last_scroll_time = some 0 := by decide

/-- C4 amended: once the 3000 ms timeout has cleared `last_scroll_time` (not
before), repeated animation ticks move the offset exactly one step per tick
toward the natural index, reach the Auto state (offset cleared) in exactly
`|o - target| + 1` ticks and stay there, and the offset never overshoots past
the natural index. -/
theorem c4_tick_convergence (app : App) (L : List LyricLine) (T : TrackInfo)
    (o target d : Nat)
    (hl : app.lyrics = some L) (ht : app.track = some T)
    (hs : app.last_scroll_time = none) (ho : app.lyrics_offset = some o)
    (htarget : target = naturalIdxMain L T.position_ms)
    (hd : d = max o target - min o target) :
    (∀ n, n ≤ d → (applyTicks n app).lyrics_offset =
        some (if o ≤ target then o + n else o - n)) ∧
    (∀ n, d + 1 ≤ n → (applyTicks n app).lyrics_offset = none) ∧
    (∀ n o2, (applyTicks n app).lyrics_offset = some o2 →
        min o target ≤ o2 ∧ o2 ≤ max o target) := by
  have key : ∀ n, (applyTicks n app).lyrics_offset = stepTowardN target n (some o) := by
    intro n
    rw [applyTicks_eq n app L T hl ht hs, ← htarget]
    simp [ho]
  have hnone : ∀ n, d + 1 ≤ n → stepTowardN target n (some o) = none := by
    intro n hn
    obtain ⟨k, rfl⟩ : ∃ k, n = k + (d + 1) := ⟨n - (d + 1), by omega⟩
    rw [stepTowardN_add]
    rw [show d + 1 = max o target - min o target + 1 by omega]
    rw [stepTowardN_term]
    exact stepTowardN_none target k
  refine ⟨?_, ?_, ?_⟩
  · intro n hn
    rw [key n]
    by_cases hot : o ≤ target
    · rw [stepTowardN_up target n o hot (by omega)]
      simp [hot]
    · have hto : target ≤ o := by omega
      rw [stepTowardN_down target n o hto (by omega)]
      simp [hot]
  · intro n hn
    rw [key n]
    exact hnone n hn
  · intro n o2 h
    rw [key n] at h
    by_cases hn : n ≤ d
    · by_cases hot : o ≤ target
      · rw [stepTowardN_up target n o hot (by omega)] at h
        have : o2 = o + n := by injection h; omega
        constructor <;> omega
      · have hto : target ≤ o := by omega
        rw [stepTowardN_down target n o hto (by omega)] at h
        have : o2 = o - n := by injection h; omega
        constructor <;> omega
    · rw [hnone n (by omega)] at h
      simp at h

/-- C4 witness: the amended theorem applied to the concrete mid-glide state
(offset 3, target 0, so `d = 3`): after 4 ticks the offset is cleared. -/
theorem c4_tick_convergence_witness :
    (applyTicks 4 exAppConverging).lyrics_offset = none :=
  (c4_tick_convergence exAppConverging exTimeline6 exTrack 3 0 3 rfl rfl rfl rfl
    (by decide) (by decide)).2.1 4 (by decide)

/-! ## C5: the offset range invariant -/

theorem handleScrollDown_noop (app : App) (now : Nat)
    (h : app.lyrics = none ∨ app.track = none) :
    handleScrollDown app now = app := by
  cases hl : app.lyrics <;> cases ht : app.track <;> simp_all [handleScrollDown]

theorem handleScrollUp_noop (app : App) (now : Nat)
    (h : app.lyrics = none ∨ app.track = none) :
    handleScrollUp app now = app := by
  cases hl : app.lyrics <;> cases ht : app.track <;> simp_all [handleScrollUp]

theorem naturalIdxMain_le_lastIdx (l : List LyricLine) (pos : Nat) :
    naturalIdxMain l pos ≤ l.length - 1 := by
  cases h : position (tsAfter pos) l with
  | none => simp [naturalIdxMain, h]
  | some i =>
      have := position_lt_length _ l i h
      simp [naturalIdxMain, h]
      split <;> omega

theorem handleScrollDown_offset (app : App) (now : Nat) (lyrics : List LyricLine)
    (track : TrackInfo) (hl : app.lyrics = some lyrics) (ht : app.track = some track) :
    (handleScrollDown app now).lyrics = app.lyrics ∧
    (handleScrollDown app now).lyrics_offset =
      some (min (scrollSeedVal app lyrics track + 1) (lyrics.length - 1)) := by
  cases ho : app.lyrics_offset with
  | none => simp [handleScrollDown, scrollSeed, scrollStepDown, scrollSeedVal, hl, ht, ho]
  | some o => simp [handleScrollDown, scrollSeed, scrollStepDown, scrollSeedVal, hl, ht, ho]

theorem handleScrollUp_offset (app : App) (now : Nat) (lyrics : List LyricLine)
    (track : TrackInfo) (hl : app.lyrics = some lyrics) (ht : app.track = some track) :
    (handleScrollUp app now).lyrics = app.lyrics ∧
    (handleScrollUp app now).lyrics_offset =
      some (scrollSeedVal app lyrics track - 1) := by
  cases ho : app.lyrics_offset with
  | none => simp [handleScrollUp, scrollSeed, scrollStepUp, scrollSeedVal, hl, ht, ho]
  | some o => simp [handleScrollUp, scrollSeed, scrollStepUp, scrollSeedVal, hl, ht, ho]

theorem scrollSeedVal_le (app : App) (lyrics : List LyricLine) (track : TrackInfo)
    (hl : app.lyrics = some lyrics) (hinv : OffsetInv app) :
    scrollSeedVal app lyrics track ≤ lyrics.length - 1 := by
  cases ho : app.lyrics_offset with
  | none => simp [scrollSeedVal, ho]; exact naturalIdxMain_le_lastIdx lyrics track.position_ms
  | some o => simpa [scrollSeedVal, ho] using hinv lyrics o hl ho

theorem offsetInv_scrollDown (app : App) (now : Nat) (hinv : OffsetInv app) :
    OffsetInv (handleScrollDown app now) := by
  cases hl : app.lyrics with
  | none => rw [handleScrollDown_noop app now (Or.inl hl)]; exact hinv
  | some lyrics =>
      cases ht : app.track with
      | none => rw [handleScrollDown_noop app now (Or.inr ht)]; exact hinv
      | some track =>
          intro L o hL ho
          obtain ⟨h1, h2⟩ := handleScrollDown_offset app now lyrics track hl ht
          rw [h1, hl] at hL
          cases hL
          rw [h2] at ho
          cases ho
          exact Nat.min_le_right _ _

theorem offsetInv_scrollUp (app : App) (now : Nat) (hinv : OffsetInv app) :
    OffsetInv (handleScrollUp app now) := by
  cases hl : app.lyrics with
  | none => rw [handleScrollUp_noop app now (Or.inl hl)]; exact hinv
  | some lyrics =>
      cases ht : app.track with
      | none => rw [handleScrollUp_noop app now (Or.inr ht)]; exact hinv
      | some track =>
          intro L o hL ho
          obtain ⟨h1, h2⟩ := handleScrollUp_offset app now lyrics track hl ht
          rw [h1, hl] at hL
          cases hL
          rw [h2] at ho
          cases ho
          have := scrollSeedVal_le app lyrics track hl hinv
          omega

theorem offsetInv_tick (app : App) (hinv : OffsetInv app) :
    OffsetInv (tickStep app) := by
  cases hs : app.last_scroll_time with
  | some t =>
      rw [show tickStep app = app by simp [tickStep, hs]]
      exact hinv
  | none =>
      cases ho : app.lyrics_offset with
      | none =>
          rw [show tickStep app = app by simp [tickStep, hs, ho]]
          exact hinv
      | some c =>
          cases hl : app.lyrics with
          | none =>
              rw [show tickStep app = app by simp [tickStep, hs, ho, hl]]
              exact hinv
          | some L1 =>
              cases ht : app.track with
              | none =>
                  rw [show tickStep app = app by simp [tickStep, hs, ho, hl, ht]]
                  exact hinv
              | some T1 =>
                  rw [tickStep_eq app L1 T1 hl ht hs]
                  intro L o hL ho2
                  simp at hL
                  rw [hl] at hL
                  cases hL
                  simp [ho, stepToward] at ho2
                  have hmax := naturalIdxMain_le_lastIdx L1 T1.position_ms
                  have hc := hinv L1 c hl ho
                  rcases Nat.lt_trichotomy c (naturalIdxMain L1 T1.position_ms) with h | h | h
                  · rw [if_pos h] at ho2
                    injection ho2 with ho3
                    omega
                  · rw [if_neg (by omega), if_neg (by omega)] at ho2
                    cases ho2
                  · rw [if_neg (by omega), if_pos h] at ho2
                    injection ho2 with ho3
                    omega

/-- C5: the offset invariant is preserved by every sequence of scroll-engine
operations: scroll-down never pushes an existing offset past `line_count - 1`
(the increment is clamped with `min`), scroll-up is a saturating decrement
that cannot go below 0, and the tick animation moves the offset toward the
natural index, which itself is at most `line_count - 1`. -/
theorem c5_scroll_offset_invariant (app : App) (ops : List ScrollOp)
    (hinv : OffsetInv app) :
    OffsetInv (applyOps app ops) := by
  induction ops generalizing app with
  | nil => exact hinv
  | cons op ops ih =>
      show OffsetInv (applyOps (applyOp app op) ops)
      apply ih
      cases op with
      | down now => exact offsetInv_scrollDown app now hinv
      | up now => exact offsetInv_scrollUp app now hinv
      | tick => exact offsetInv_tick app hinv

/-- C5 witness: a concrete scroll/tick sequence from a state with no manual
offset (which satisfies the invariant vacuously). -/
theorem c5_scroll_offset_invariant_witness :
    OffsetInv (applyOps exAppCurrent
      [ScrollOp.down 10, ScrollOp.down 20, ScrollOp.down 30, ScrollOp.up 40,
       ScrollOp.tick]) :=
  c5_scroll_offset_invariant exAppCurrent _
    (fun _ o _ ho => by rw [show exAppCurrent.lyrics_offset = none from rfl] at ho; cases ho)

/-! ## C9: rasterizer shape and determinism -/

/-- C9: for any resampling kernel, bitmap, and positive requested dimensions,
the rasterized grid has exactly `height` rows of exactly `width` cells, and
the construction is a pure function of its inputs: equal inputs give equal
grids. -/
theorem c9_render_grid_shape_deterministic
    (kernel : Bitmap → Nat → Nat → Nat → Nat → Rgb) (img : Bitmap)
    (width height : Nat) (hw : 0 < width) (hh : 0 < height) :
    (renderGrid kernel img width height).length = height ∧
    (∀ row ∈ renderGrid kernel img width height, row.length = width) ∧
    (∀ img2 : Bitmap, img = img2 →
      renderGrid kernel img width height = renderGrid kernel img2 width height) := by
  refine ⟨by simp [renderGrid], ?_, ?_⟩
  · intro row hrow
    simp only [renderGrid, List.mem_map] at hrow
    obtain ⟨r, _, hrw⟩ := hrow
    simp [← hrw]
  · intro img2 h
    rw [h]

/-- C9 witness: the 10 × 5 instance of the spec's example, on a concrete
kernel and bitmap. -/
theorem c9_render_grid_shape_witness :
    (renderGrid exKernel exBitmap 10 5).length = 5 :=
  (c9_render_grid_shape_deterministic exKernel exBitmap 10 5 (by decide) (by decide)).1

/-! ## C10: scrolling without lyrics or track -/

/-- C10: a `ScrollDown` or `ScrollUp` event processed while no lyrics are
loaded or no track is current leaves the application state completely
unchanged — in particular `lyrics_offset` and `last_scroll_time` keep their
prior values. -/
theorem c10_scroll_noop_without_lyrics (app : App) (now : Nat)
    (h : app.lyrics = none ∨ app.track = none) :
    handleScrollDown app now = app ∧ handleScrollUp app now = app :=
  ⟨handleScrollDown_noop app now h, handleScrollUp_noop app now h⟩

/-- C10 witness: scrolling in the idle state (no track, no lyrics) is the
identity. -/
theorem c10_scroll_noop_witness :
    handleScrollDown exAppIdle 7 = exAppIdle ∧ handleScrollUp exAppIdle 7 = exAppIdle :=
  c10_scroll_noop_without_lyrics exAppIdle 7 (Or.inl rfl)

/-! ## C6: parse returns None exactly when no timed line is recovered -/

/-- C6: `parse` yields `None` exactly when no timed line was recovered from
the raw transcript (in particular whenever the response carries no transcript
at all), and otherwise yields `Some` of precisely the recovered timed lines —
an order-preserving `filterMap` over the transcript's lines, so lines appear
in transcript order with timestamps not resorted. -/
theorem c6_parse_none_iff_no_timed_lines (data : LrclibResponse) :
    (parse data = none ↔
      ∀ raw, data.synced_lyrics.or data.plain_lyrics = some raw → timedLines raw = []) ∧
    (∀ raw, data.synced_lyrics.or data.plain_lyrics = some raw →
      timedLines raw ≠ [] → parse data = some (timedLines raw)) := by
  cases h : data.synced_lyrics.or data.plain_lyrics with
  | none =>
      constructor
      · simp [parse, h]
      · intro raw hraw
        cases hraw
  | some raw =>
      constructor
      · by_cases he : timedLines raw = []
        · simp [parse, h, timedLines, he]
        · simp [parse, h, timedLines, he]
      · intro raw2 hraw2 hne
        cases hraw2
        simp [parse, h, timedLines] at hne ⊢
        simp [hne]

/-- C6 witness: the empty transcript and a transcript with only untimed
lines both parse to `None`. -/
theorem c6_parse_none_witness :
    parse { synced_lyrics := some "", plain_lyrics := none } = none ∧
    parse { synced_lyrics := some "Hello\nWorld", plain_lyrics := none } = none :=
  ⟨(c6_parse_none_iff_no_timed_lines _).1.mpr (fun raw hraw => by cases hraw; decide),
   (c6_parse_none_iff_no_timed_lines _).1.mpr (fun raw hraw => by cases hraw; decide)⟩

/-! ## C7: the timestamp formula -/

theorem digits_not_mem (l : List Char) (hd : l.all (fun c => c.isDigit) = true)
    (c : Char) (hc : c.isDigit = false) : c ∉ l := by
  intro hmem
  have := List.all_eq_true.mp hd c hmem
  simp [hc] at this

theorem splitOnChar_not_mem (sep : Char) :
    ∀ (l : List Char), sep ∉ l → splitOnChar sep l = [l] := by
  intro l
  induction l with
  | nil => intro _; rfl
  | cons c cs ih =>
      intro h
      have hc : ¬ c = sep := fun e => h (by rw [e]; exact List.mem_cons_self _ _)
      have hcs := ih (fun hm => h (List.mem_cons_of_mem c hm))
      simp [splitOnChar, hc, hcs]

theorem splitOnChar_append (sep : Char) :
    ∀ (a b : List Char), sep ∉ a →
      splitOnChar sep (a ++ sep :: b) = a :: splitOnChar sep b := by
  intro a
  induction a with
  | nil => intro b _; simp [splitOnChar]
  | cons c cs ih =>
      intro b h
      have hc : ¬ c = sep := fun e => h (by rw [e]; exact List.mem_cons_self _ _)
      have hcs := ih b (fun hm => h (List.mem_cons_of_mem c hm))
      simp [splitOnChar, hc, hcs]

theorem parseU64_digits (ds : List Char) (hne : ds ≠ [])
    (hd : ds.all (fun c => c.isDigit) = true) (hv : digitsToNat ds < u64Size) :
    parseU64 ds = some (digitsToNat ds) := by
  cases ds with
  | nil => exact absurd rfl hne
  | cons c cs =>
      have hcd : c.isDigit = true := by
        have := List.all_eq_true.mp hd c (List.mem_cons_self _ _)
        simpa using this
      have hcp : ¬ c = '+' := by
        intro e
        rw [e] at hcd
        exact absurd hcd (by decide)
      simp only [parseU64]
      split
      next hplus =>
        have : c = '+' := by simpa using hplus
        exact absurd this hcp
      next hplus =>
        simp [hne, hd, hv]

/-- C7: on any well-formed `mm:ss` or `mm:ss.f` input whose numeric pieces
fit in `u64` and whose total does not overflow, `parse_timestamp` yields
exactly `min * 60000 + sec * 1000 + frac_ms`, where `frac_ms` is the
fractional literal × 10 when the fraction has exactly 2 digits, the literal
verbatim for any other length, and 0 when the fraction is absent. -/
theorem c7_parse_timestamp_formula (m s : List Char) (f : Option (List Char))
    (hm : m ≠ [] ∧ m.all (fun c => c.isDigit) = true)
    (hs : s ≠ [] ∧ s.all (fun c => c.isDigit) = true)
    (hf : ∀ fr, f = some fr → fr ≠ [] ∧ fr.all (fun c => c.isDigit) = true)
    (hmv : digitsToNat m < u64Size) (hsv : digitsToNat s < u64Size)
    (hfv : ∀ fr, f = some fr → digitsToNat fr < u64Size)
    (htot : digitsToNat m * 60000 + digitsToNat s * 1000 + fracMsSpec f < u64Size) :
    parse_timestamp (tsString m s f) =
      some (digitsToNat m * 60000 + digitsToNat s * 1000 + fracMsSpec f) := by
  obtain ⟨hmne, hmd⟩ := hm
  obtain ⟨hsne, hsd⟩ := hs
  cases f with
  | none =>
      have h1 : splitOnChar ':' (m ++ ':' :: s) = [m, s] := by
        rw [splitOnChar_append ':' m s (digits_not_mem m hmd ':' (by decide))]
        rw [splitOnChar_not_mem ':' s (digits_not_mem s hsd ':' (by decide))]
      have h2 : splitOnChar '.' s = [s] :=
        splitOnChar_not_mem '.' s (digits_not_mem s hsd '.' (by decide))
      show parse_timestamp (m ++ ':' :: (s ++ [])) = _
      rw [List.append_nil]
      simp only [parse_timestamp, h1, h2,
        parseU64_digits m hmne hmd hmv, parseU64_digits s hsne hsd hsv, fracPart]
      simp only [fracMsSpec] at htot ⊢
      rw [Nat.mod_eq_of_lt htot]
  | some fr =>
      obtain ⟨hfne, hfd⟩ := hf fr rfl
      have hfv2 := hfv fr rfl
      have hnc : ':' ∉ s ++ '.' :: fr := by
        intro hmem
        rcases List.mem_append.mp hmem with hx | hx
        · exact digits_not_mem s hsd ':' (by decide) hx
        · rcases List.mem_cons.mp hx with hx | hx
          · exact absurd hx (by decide)
          · exact digits_not_mem fr hfd ':' (by decide) hx
      have h1 : splitOnChar ':' (m ++ ':' :: (s ++ '.' :: fr)) = [m, s ++ '.' :: fr] := by
        rw [splitOnChar_append ':' m _ (digits_not_mem m hmd ':' (by decide))]
        rw [splitOnChar_not_mem ':' (s ++ '.' :: fr) hnc]
      have h2 : splitOnChar '.' (s ++ '.' :: fr) = [s, fr] := by
        rw [splitOnChar_append '.' s fr (digits_not_mem s hsd '.' (by decide))]
        rw [splitOnChar_not_mem '.' fr (digits_not_mem fr hfd '.' (by decide))]
      show parse_timestamp (m ++ ':' :: (s ++ '.' :: fr)) = _
      simp only [parse_timestamp, h1, h2,
        parseU64_digits m hmne hmd hmv, parseU64_digits s hsne hsd hsv,
        parseU64_digits fr hfne hfd hfv2, fracPart]
      simp only [fracMsSpec] at htot ⊢
      rw [Nat.mod_eq_of_lt htot]

/-- C7 witness: the spec's end-to-end values, `"00:01.50"` ↦ 1500 ms and
`"00:03.00"` ↦ 3000 ms. -/
theorem c7_parse_timestamp_witness :
    parse_timestamp (tsString ['0', '0'] ['0', '1'] (some ['5', '0'])) = some 1500 ∧
    parse_timestamp (tsString ['0', '0'] ['0', '3'] (some ['0', '0'])) = some 3000 :=
  ⟨(c7_parse_timestamp_formula ['0', '0'] ['0', '1'] (some ['5', '0'])
      ⟨by decide, by decide⟩ ⟨by decide, by decide⟩
      (fun fr hfr => by cases hfr; exact ⟨by decide, by decide⟩)
      (by decide) (by decide) (fun fr hfr => by cases hfr; decide) (by decide)).trans
    (by decide),
   (c7_parse_timestamp_formula ['0', '0'] ['0', '3'] (some ['0', '0'])
      ⟨by decide, by decide⟩ ⟨by decide, by decide⟩
      (fun fr hfr => by cases hfr; exact ⟨by decide, by decide⟩)
      (by decide) (by decide) (fun fr hfr => by cases hfr; decide) (by decide)).trans
    (by decide)⟩

end Termony
